import Mathlib

/-!
Shallow embedding of the two scripts of this repository:
`scripts/enhance-commit-messages.py` (history parser, terseness classifier,
template generator, diff-stat fetcher) and `scripts/check-perf-regression.py`
(regression comparator).

Python strings are modelled as `List Char`.  `str.split(sep)` with a
multi-character separator is `pySplit`; with a single-character separator it is
`List.splitOn`; `str.strip()` is `pyStrip`; `str.replace(old, new)` is
`pyReplace`.  Python floats are modelled as exact rationals (`ℚ`).
-/

/-- Python `str.strip()`: remove leading and trailing whitespace characters. -/
def pyStrip (s : List Char) : List Char :=
  ((s.dropWhile Char.isWhitespace).reverse.dropWhile Char.isWhitespace).reverse

/-- Python `str.split(sep)` for a non-empty separator: scan left to right,
breaking at each leftmost non-overlapping occurrence of `sep`.  (For an empty
`sep`, which Python rejects, every character starts a fresh scan step and the
first branch is never taken.) -/
def pySplit (sep : List Char) : List Char → List (List Char)
  | [] => [[]]
  | c :: cs =>
    if h : sep ≠ [] ∧ sep <+: (c :: cs) then
      [] :: pySplit sep ((c :: cs).drop sep.length)
    else
      let r := pySplit sep cs
      (c :: r.headI) :: r.tail
termination_by s => s.length
decreasing_by
  · simp only [List.length_drop, List.length_cons]
    have h1 : 0 < sep.length := List.length_pos.mpr h.1
    omega
  · simp only [List.length_cons]
    omega

/-- Python `str.replace(old, new)` for a non-empty `old`: split on `old` and
rejoin the pieces with `new`. -/
def pyReplace (old new s : List Char) : List Char :=
  List.intercalate new (pySplit old s)

/-- Python `needle in hay` (substring containment). -/
def pyContains (hay needle : List Char) : Bool :=
  decide (needle <:+: hay)

/-- The dataclass `Commit` of enhance-commit-messages.py (lines 43-49). -/
structure Commit where
  hash : List Char
  subject : List Char
  body : List Char
  files_changed : List (List Char)
  stats : List Char
deriving DecidableEq

/-- The field delimiter `'|||'` of the git log format string (line 87). -/
def tripleBar : List Char := "|||".data

/-- The commit separator `'|||END_COMMIT'` of the git log format string (line 87). -/
def sentinel : List Char := "|||END_COMMIT".data

/-- The fixed path-prefix vocabulary of the body/files line scan (lines 121-125). -/
def knownPrefixes : List (List Char) :=
  ["src/".data, "docs/".data, "tests/".data, "Cargo.".data, "scripts/".data]

/-- Whether a line is recognised as the start of the file list, i.e. starts
with one of the known path prefixes (lines 121-125). -/
def isFileStart (line : List Char) : Bool :=
  knownPrefixes.any fun p => p.isPrefixOf line

/-- The body/files line scan of `get_commits` (lines 115-131): classify each
line of the third field as a body line or a file line, switching to files mode
on the first line starting with a known path prefix.  Returns
`(body_lines, file_lines)`. -/
def scanLines : List (List Char) → Bool → List (List Char) × List (List Char)
  | [], _ => ([], [])
  | line :: ls, in_files =>
    if !in_files && isFileStart line then
      let r := scanLines ls true
      (r.1, line :: r.2)
    else if in_files then
      let r := scanLines ls in_files
      (r.1, line :: r.2)
    else
      let r := scanLines ls in_files
      (line :: r.1, r.2)

/-- The per-block body of the `get_commits` loop (lines 102-145): skip blank
blocks, split on `'|||'`, require at least three fields, and build the commit
record from the stripped hash, the stripped subject and the scanned third
field.  The per-hash diff-stat lookup (`_get_diff_stats`, line 137) is passed
in as the function `stats`. -/
def parseBlock (stats : List Char → List Char) (raw : List Char) : Option Commit :=
  if pyStrip raw = [] then none
  else
    let parts := pySplit tripleBar raw
    if parts.length < 3 then none
    else
      let commit_hash := pyStrip (parts.getD 0 [])
      let subject := pyStrip (parts.getD 1 [])
      let body_and_files := parts.getD 2 []
      let lines := body_and_files.splitOn '\n'
      let scanned := scanLines lines false
      let body := pyStrip (List.intercalate ['\n'] scanned.1)
      let files := scanned.2.filter fun f => !(pyStrip f).isEmpty
      some ⟨commit_hash, subject, body, files, stats commit_hash⟩

/-- `get_commits` (lines 82-147), applied to the raw stdout of the git log
invocation: split on the sentinel and run the per-block parse on each block. -/
def get_commits (stats : List Char → List Char) (stdout : List Char) : List Commit :=
  (pySplit sentinel stdout).filterMap (parseBlock stats)

/-- A synthetic body-and-files field in the parser's expected format: the
body, a newline, then the newline-joined file list. -/
def mkBodyAndFiles (body : List Char) (files : List (List Char)) : List Char :=
  body ++ '\n' :: List.intercalate ['\n'] files

/-- A synthetic log block in the parser's expected format:
`hash|||subject|||body-and-files`. -/
def mkBlock (hash subject body_and_files : List Char) : List Char :=
  hash ++ (tripleBar ++ (subject ++ (tripleBar ++ body_and_files)))

/-- A sentinel-terminated stdout holding a single synthetic block. -/
def mkStdout (block : List Char) : List Char :=
  block ++ sentinel

/-- The block has no occurrence of the sentinel other than the terminal one
appended by `mkStdout`; this is what sentinel-termination means for a
well-formed synthetic block. -/
def sentinelFree (block : List Char) : Prop :=
  ∀ i, i < block.length → ¬ sentinel <+: (block.drop i ++ sentinel)

instance (block : List Char) : Decidable (sentinelFree block) := by
  unfold sentinelFree
  infer_instance

/-- Result of a completed subprocess: its exit code and captured stdout. -/
structure ProcResult where
  returncode : Int
  stdout : List Char
deriving DecidableEq

/-- The exception `subprocess.CalledProcessError`. -/
structure CalledProcessError where
  returncode : Int
deriving DecidableEq

/-- `subprocess.run(..., check=check)` modelled on an already-completed
process: it raises `CalledProcessError` iff `check` is set and the exit code
is non-zero, and otherwise returns the completed process unchanged. -/
def subprocessRun (check : Bool) (res : ProcResult) : Except CalledProcessError ProcResult :=
  if check && res.returncode != 0 then Except.error ⟨res.returncode⟩ else Except.ok res

/-- `_get_diff_stats` (lines 149-157): run `git show --stat` without `check`,
and return the stripped stdout.  The result type records whether an exception
propagates to the caller. -/
def _get_diff_stats (res : ProcResult) : Except CalledProcessError (List Char) :=
  match subprocessRun false res with
  | Except.error e => Except.error e
  | Except.ok r => Except.ok (pyStrip r.stdout)

/-- The terse-subject vocabulary of `needs_enhancement` (lines 171-174). -/
def tersePatterns : List (List Char) :=
  ["fix".data, "update".data, "add".data, "remove".data, "chore".data,
   "refactor".data, "notes".data, "wip".data, "tmp".data]

/-- `needs_enhancement` (lines 159-185): decide whether a commit is a candidate
for enhancement. -/
def needs_enhancement (commit : Commit) : Bool :=
  if 200 < commit.body.length then false
  else if "Release v".data.isPrefixOf commit.subject
       || "Bump version".data.isPrefixOf commit.subject then false
  else
    let subject_lower := commit.subject.map Char.toLower
    if tersePatterns.any fun p =>
        subject_lower == p
        || (p ++ [':']).isPrefixOf subject_lower
        || (p ++ ['(']).isPrefixOf subject_lower then
      if commit.subject.length < 60 then true else false
    else false

/-- The static instruction block of the `enhance_commit` template, between the
diff stats and the project context (lines 200-211). -/
def instructionsBlock : List Char :=
  "\n\n[AI Enhancement Instructions]\nRewrite this commit as a user-focused changelog entry:\n\n1. Focus on USER IMPACT, not implementation details\n2. Explain WHAT changed (for users) and WHY it matters\n3. Use clear, jargon-free language\n4. Format: \"<type>(<scope>): <clear description>\"\n5. Types: feat, fix, perf, docs, refactor, test, chore\n6. Add a detailed body if needed explaining the benefit\n\nContext about OMG:\n".data

/-- The static example block of the `enhance_commit` template, after the
project context (lines 213-219). -/
def examplesBlock : List Char :=
  "\n\nExample good messages:\n- \"feat(debian): incremental index updates for 3-5x faster package operations\"\n- \"fix(cli): ensure sudo prompts work correctly in interactive mode\"\n- \"perf(search): switch to LZ4 compression for 60% smaller cache and faster I/O\"\n\nGenerate enhanced commit message:\n".data

/-- `enhance_commit` (lines 187-220): the enhancement template, a pure
function of the commit record and the static project-context string. -/
def enhance_commit (context : List Char) (commit : Commit) : List Char :=
  "Original: ".data ++ commit.subject ++
  "\n\nFiles changed:\n".data ++
  List.intercalate ['\n'] ((commit.files_changed.take 10).map fun f => "  - ".data ++ f) ++
  "\n\nDiff stats:\n".data ++ commit.stats.take 500 ++
  instructionsBlock ++ context.take 500 ++ examplesBlock

/-- Value of a digit string (most significant digit first). -/
def digitsToNat (l : List Char) : Nat :=
  l.foldl (fun a c => a * 10 + (c.toNat - '0'.toNat)) 0

/-- Python `float(...)` restricted to plain decimal literals: optional sign,
integer digits, optional `'.'` and fraction digits, at least one digit in
total.  Exponents, `inf`/`nan`, underscores and surrounding whitespace are not
modelled; on every other input the parse fails (`none`), as `float` raises
`ValueError`. -/
def parsePyFloat (s : List Char) : Option ℚ :=
  let signed : ℚ × List Char :=
    match s with
    | '-' :: r => (-1, r)
    | '+' :: r => (1, r)
    | r => (1, r)
  let ip := signed.2.takeWhile Char.isDigit
  let r2 := signed.2.dropWhile Char.isDigit
  match r2 with
  | [] => if ip.isEmpty then none else some (signed.1 * digitsToNat ip)
  | '.' :: fr =>
    let fp := fr.takeWhile Char.isDigit
    let r3 := fr.dropWhile Char.isDigit
    if r3.isEmpty && !(ip.isEmpty && fp.isEmpty) then
      some (signed.1 * ((digitsToNat ip : ℚ) + (digitsToNat fp : ℚ) / (10 : ℚ) ^ fp.length))
    else none
  | _ => none

/-- The row marker `'| search |'` of check-perf-regression.py (line 26). -/
def searchMarker : List Char := "| search |".data

/-- The report scan of `check_regression` (lines 22-35): find the first line
containing `'| search |'`, take its third pipe-delimited cell, strip it, drop
the `'ms'` unit and parse it as a float.  `none` models every path on which
`current_search_ms` stays `None` or an exception is caught (no such line,
missing cell, unparsable number). -/
def extractSearchMs (lines : List (List Char)) : Option ℚ :=
  match lines.find? fun l => pyContains l searchMarker with
  | none => none
  | some line =>
    match (line.splitOn '|').get? 2 with
    | none => none
    | some cell => parsePyFloat (pyReplace "ms".data [] (pyStrip cell))

/-- Outcome of loading `benchmarks/summary.json` (lines 10-19): the file may be
absent, present but failing to load, or loaded with an optional numeric
`search_ms` field. -/
inductive BaselineLoad
  | absent
  | loadError
  | loaded (search_ms : Option ℚ)
deriving DecidableEq

/-- `check_regression` (lines 6-57), returning the process exit code.
`report = none` models a report file that cannot be read (the caught exception
of lines 33-35); otherwise `report` holds the report's lines. -/
def check_regression (baseline : BaselineLoad) (report : Option (List (List Char))) : Nat :=
  match baseline with
  | BaselineLoad.absent => 0
  | BaselineLoad.loadError => 0
  | BaselineLoad.loaded search_ms =>
    let currentOpt : Option ℚ :=
      match report with
      | none => none
      | some lines => extractSearchMs lines
    match currentOpt with
    | none => 1
    | some current =>
      match search_ms with
      | none => 0
      | some b =>
        if b = 0 then 0
        else if b * (1.15 : ℚ) < current then 1 else 0

/-- The reported percentage increase of a detected regression (line 51). -/
def regressionDiff (baseline current : ℚ) : ℚ :=
  (current / baseline - 1) * 100

theorem tripleBar_eq : tripleBar = ['|', '|', '|'] := rfl

theorem pySplit_nil (sep : List Char) : pySplit sep [] = [[]] := by
  rw [pySplit]

theorem pySplit_pos {sep s : List Char} (h1 : sep ≠ []) (h2 : sep <+: s) :
    pySplit sep s = [] :: pySplit sep (s.drop sep.length) := by
  match s with
  | [] => exact absurd (List.prefix_nil.mp h2) h1
  | c :: cs => rw [pySplit, dif_pos ⟨h1, h2⟩]

theorem pySplit_neg {sep : List Char} {c : Char} {cs : List Char}
    (h : ¬ sep <+: (c :: cs)) :
    pySplit sep (c :: cs) = (c :: (pySplit sep cs).headI) :: (pySplit sep cs).tail := by
  rw [pySplit, dif_neg (fun hc => h hc.2)]

theorem pySplit_ne_nil (sep s : List Char) : pySplit sep s ≠ [] := by
  match s with
  | [] => rw [pySplit_nil]; simp
  | c :: cs => rw [pySplit]; split <;> simp

theorem infl_of_pref {l₁ l₂ : List Char} (h : l₁ <+: l₂) : l₁ <:+: l₂ :=
  List.IsPrefix.isInfix h

theorem infl_cons_of {l₁ l₂ : List Char} {a : Char} (h : l₁ <:+: l₂) : l₁ <:+: a :: l₂ :=
  List.infix_cons h

theorem infl_cons_cases {l₁ l₂ : List Char} {x : Char} (h : l₁ <:+: x :: l₂) :
    l₁ <+: (x :: l₂) ∨ l₁ <:+: l₂ :=
  List.infix_cons_iff.mp h

theorem infl_of_pref_suff {l₁ l₂ l₃ : List Char} (h1 : l₁ <+: l₂) (h2 : l₂ <:+ l₃) :
    l₁ <:+: l₃ := by
  have h3 : l₂ <:+: l₃ := List.IsSuffix.isInfix h2
  exact List.IsInfix.trans (infl_of_pref h1) h3

theorem pySplit_append_sep (sep : List Char) (hsep : sep ≠ []) :
    ∀ a b : List Char, (∀ i, i < a.length → ¬ sep <+: (a.drop i ++ (sep ++ b))) →
      pySplit sep (a ++ (sep ++ b)) = a :: pySplit sep b := by
  intro a
  induction a with
  | nil =>
    intro b _
    rw [List.nil_append, pySplit_pos hsep (List.prefix_append sep b), List.drop_left]
  | cons x a' ih =>
    intro b hfree
    have h0 : ¬ sep <+: (x :: (a' ++ (sep ++ b))) := by
      have := hfree 0 (by simp)
      simpa using this
    have h' : ∀ i, i < a'.length → ¬ sep <+: (a'.drop i ++ (sep ++ b)) := by
      intro i hi
      have := hfree (i + 1) (by simp only [List.length_cons]; omega)
      simpa using this
    rw [List.cons_append, pySplit_neg h0, ih b h']
    simp

theorem pySplit_no_occurrence {sep s : List Char} (h : ¬ sep <:+: s) :
    pySplit sep s = [s] := by
  induction s with
  | nil => rw [pySplit_nil]
  | cons c cs ih =>
    have hnp : ¬ sep <+: (c :: cs) := fun hp => h (infl_of_pref hp)
    rw [pySplit_neg hnp, ih (fun hi => h (infl_cons_of hi))]
    rfl

theorem earlyFree_triple {a : List Char} (b : List Char)
    (h1 : ¬ tripleBar <:+: a) (h2 : a.getLast? ≠ some '|') :
    ∀ i, i < a.length → ¬ tripleBar <+: (a.drop i ++ (tripleBar ++ b)) := by
  intro i hi hpre
  have hdne : a.drop i ≠ [] := by
    intro hnil
    rw [List.drop_eq_nil_iff] at hnil
    omega
  obtain ⟨x, d', hd⟩ := List.exists_cons_of_ne_nil hdne
  have ha : a = a.take i ++ (x :: d') := by rw [← hd, List.take_append_drop]
  rw [hd, tripleBar_eq, List.cons_append, List.cons_prefix_cons] at hpre
  obtain ⟨hx, hpre2⟩ := hpre
  subst hx
  cases d' with
  | nil =>
    exact h2 (by rw [ha]; exact List.getLast?_concat _)
  | cons y d'' =>
    rw [List.cons_append, List.cons_prefix_cons] at hpre2
    obtain ⟨hy, hpre3⟩ := hpre2
    subst hy
    cases d'' with
    | nil =>
      refine h2 ?_
      have ha2 : a = (a.take i ++ ['|']) ++ ['|'] := by
        conv_lhs => rw [ha]
        simp
      rw [ha2]
      exact List.getLast?_concat _
    | cons z d₃ =>
      rw [List.cons_append, List.cons_prefix_cons] at hpre3
      obtain ⟨hz, _⟩ := hpre3
      subst hz
      refine h1 ?_
      have hp : tripleBar <+: a.drop i := by
        rw [hd, tripleBar_eq]
        exact ⟨d₃, rfl⟩
      exact infl_of_pref_suff hp (List.drop_suffix i a)

theorem triple_notin_append (b : List Char) (hb : ¬ tripleBar <:+: b) :
    ∀ a : List Char, ¬ tripleBar <:+: a → ¬ tripleBar <:+: (a ++ '\n' :: b) := by
  intro a
  induction a with
  | nil =>
    intro _ h
    rw [List.nil_append] at h
    rcases infl_cons_cases h with hp | hi
    · rw [tripleBar_eq, List.cons_prefix_cons] at hp
      exact absurd hp.1 (by decide)
    · exact hb hi
  | cons x a' ih =>
    intro ha h
    have ha' : ¬ tripleBar <:+: a' := fun hx => ha (infl_cons_of hx)
    rw [List.cons_append] at h
    rcases infl_cons_cases h with hp | hi
    · rw [tripleBar_eq, List.cons_prefix_cons] at hp
      obtain ⟨hx, hp2⟩ := hp
      subst hx
      cases a' with
      | nil =>
        rw [List.nil_append, List.cons_prefix_cons] at hp2
        exact absurd hp2.1 (by decide)
      | cons y a'' =>
        rw [List.cons_append, List.cons_prefix_cons] at hp2
        obtain ⟨hy, hp3⟩ := hp2
        subst hy
        cases a'' with
        | nil =>
          rw [List.nil_append, List.cons_prefix_cons] at hp3
          exact absurd hp3.1 (by decide)
        | cons z a₃ =>
          rw [List.cons_append, List.cons_prefix_cons] at hp3
          obtain ⟨hz, _⟩ := hp3
          subst hz
          exact ha (infl_of_pref (by rw [tripleBar_eq]; exact ⟨a₃, rfl⟩))
    · exact (ih ha') hi

theorem intercalate_nil_eq : List.intercalate ['\n'] ([] : List (List Char)) = [] := rfl

theorem intercalate_single (f : List Char) : List.intercalate ['\n'] [f] = f := by
  simp [List.intercalate, List.intersperse]

theorem intercalate_cons₂ (f g : List Char) (t : List (List Char)) :
    List.intercalate ['\n'] (f :: g :: t)
      = f ++ '\n' :: List.intercalate ['\n'] (g :: t) := by
  simp [List.intercalate, List.intersperse_cons_cons]

theorem triple_notin_intercalate :
    ∀ fs : List (List Char), (∀ f ∈ fs, ¬ tripleBar <:+: f) →
      ¬ tripleBar <:+: List.intercalate ['\n'] fs := by
  intro fs
  induction fs with
  | nil =>
    intro _ h
    rw [intercalate_nil_eq, List.infix_nil] at h
    exact absurd h (by decide)
  | cons f rest ih =>
    intro hf
    cases rest with
    | nil =>
      rw [intercalate_single]
      exact hf f (List.mem_cons_self f [])
    | cons g t =>
      rw [intercalate_cons₂]
      exact triple_notin_append (List.intercalate ['\n'] (g :: t))
        (ih fun x hx => hf x (List.mem_cons_of_mem f hx))
        f (hf f (List.mem_cons_self f (g :: t)))

theorem splitOnP_append_sep (p : Char → Bool) (x : Char) (hx : p x = true) :
    ∀ a b : List Char, (a ++ x :: b).splitOnP p = a.splitOnP p ++ b.splitOnP p := by
  intro a
  induction a with
  | nil =>
    intro b
    simp [List.splitOnP_cons, hx]
  | cons y a' ih =>
    intro b
    rw [List.cons_append, List.splitOnP_cons, List.splitOnP_cons]
    by_cases hy : p y
    · simp [hy, ih]
    · simp only [hy, Bool.false_eq_true, if_false]
      rw [ih]
      obtain ⟨h₀, t₀, he⟩ := List.exists_cons_of_ne_nil (List.splitOnP_ne_nil p a')
      rw [he]
      simp

theorem splitOn_append_sep (c : Char) (a b : List Char) :
    (a ++ c :: b).splitOn c = a.splitOn c ++ b.splitOn c := by
  simp only [List.splitOn]
  exact splitOnP_append_sep _ c (by simp) a b

theorem scanLines_true (ls : List (List Char)) : scanLines ls true = ([], ls) := by
  induction ls with
  | nil => rfl
  | cons l t ih => simp [scanLines, ih]

theorem scanLines_false (ls : List (List Char)) :
    scanLines ls false
      = (ls.takeWhile (fun l => !isFileStart l), ls.dropWhile (fun l => !isFileStart l)) := by
  induction ls with
  | nil => rfl
  | cons l t ih =>
    by_cases hf : isFileStart l
    · simp [scanLines, hf, scanLines_true, List.takeWhile_cons, List.dropWhile_cons]
    · simp [scanLines, hf, ih, List.takeWhile_cons, List.dropWhile_cons]

theorem pyStrip_nil_eq : pyStrip [] = [] := rfl

theorem pyStrip_ne_nil {l : List Char} {c : Char} (hc : c ∈ l) (hw : c.isWhitespace = false) :
    pyStrip l ≠ [] := by
  intro h
  have h1 : (l.dropWhile Char.isWhitespace).reverse.dropWhile Char.isWhitespace = [] := by
    have h0 := congrArg List.reverse h
    simpa [pyStrip] using h0
  rw [List.dropWhile_eq_nil_iff] at h1
  have hsplit : c ∈ l.takeWhile Char.isWhitespace ++ l.dropWhile Char.isWhitespace := by
    rw [List.takeWhile_append_dropWhile]
    exact hc
  have h2 : c ∈ l.dropWhile Char.isWhitespace := by
    rcases List.mem_append.mp hsplit with h3 | h3
    · exact absurd (List.mem_takeWhile_imp h3) (by simp [hw])
    · exact h3
  exact absurd (h1 c (by simpa using h2)) (by simp [hw])

theorem strip_pref_ne_nil {f t : List Char} {c : Char} (ht : (c :: t) <+: f)
    (hw : c.isWhitespace = false) : pyStrip f ≠ [] := by
  obtain ⟨r, hr⟩ := ht
  exact pyStrip_ne_nil (by rw [← hr]; exact List.mem_append.mpr (Or.inl (List.mem_cons_self c t))) hw

theorem strip_ne_nil_of_fileStart {f : List Char} (h : isFileStart f = true) :
    pyStrip f ≠ [] := by
  simp only [isFileStart, knownPrefixes, List.any_eq_true, List.mem_cons,
    List.not_mem_nil, or_false, List.isPrefixOf_iff_prefix] at h
  obtain ⟨p, hp, hpf⟩ := h
  rcases hp with rfl | rfl | rfl | rfl | rfl
  · exact strip_pref_ne_nil hpf (by decide)
  · exact strip_pref_ne_nil hpf (by decide)
  · exact strip_pref_ne_nil hpf (by decide)
  · exact strip_pref_ne_nil hpf (by decide)
  · exact strip_pref_ne_nil hpf (by decide)

theorem parts_of_block {hash subject baf : List Char}
    (h1 : ¬ tripleBar <:+: hash) (h2 : hash.getLast? ≠ some '|')
    (h3 : ¬ tripleBar <:+: subject) (h4 : subject.getLast? ≠ some '|')
    (h5 : ¬ tripleBar <:+: baf) :
    pySplit tripleBar (mkBlock hash subject baf) = [hash, subject, baf] := by
  unfold mkBlock
  rw [pySplit_append_sep tripleBar (by decide) hash (subject ++ (tripleBar ++ baf))
        (earlyFree_triple _ h1 h2)]
  rw [pySplit_append_sep tripleBar (by decide) subject baf (earlyFree_triple _ h3 h4)]
  rw [pySplit_no_occurrence h5]

theorem stdout_split {block : List Char} (hs : sentinelFree block) :
    pySplit sentinel (mkStdout block) = [block, []] := by
  unfold mkStdout
  have h := pySplit_append_sep sentinel (by decide) block [] ?_
  · rw [List.append_nil] at h
    rw [h, pySplit_nil]
  · intro i hi
    have h2 := hs i hi
    simpa using h2

theorem pipe_mem_mkBlock (hash subject baf : List Char) : '|' ∈ mkBlock hash subject baf := by
  unfold mkBlock
  exact List.mem_append.mpr (Or.inr (List.mem_append.mpr (Or.inl (by decide))))

theorem parseBlock_nil (stats : List Char → List Char) : parseBlock stats [] = none := by
  rfl

theorem parseBlock_eval (stats : List Char → List Char)
    (hash subject body : List Char) (files : List (List Char))
    (hhash : pyStrip hash = hash) (hhne : ¬ tripleBar <:+: hash)
    (hhlast : hash.getLast? ≠ some '|')
    (hsubj : pyStrip subject = subject) (hsne : ¬ tripleBar <:+: subject)
    (hslast : subject.getLast? ≠ some '|')
    (hbody : ¬ tripleBar <:+: body)
    (hbodylines : ∀ l ∈ body.splitOn '\n', isFileStart l = false)
    (hfiles : ∀ f ∈ files, isFileStart f = true)
    (hfsep : ∀ f ∈ files, ¬ tripleBar <:+: f)
    (hfnl : ∀ f ∈ files, '\n' ∉ f)
    (hfne : files ≠ []) :
    parseBlock stats (mkBlock hash subject (mkBodyAndFiles body files))
      = some ⟨hash, subject, pyStrip body, files, stats hash⟩ := by
  have hbaf : ¬ tripleBar <:+: mkBodyAndFiles body files := by
    unfold mkBodyAndFiles
    exact triple_notin_append _ (triple_notin_intercalate files hfsep) body hbody
  have hparts := parts_of_block hhne hhlast hsne hslast hbaf
  have hblockstrip : pyStrip (mkBlock hash subject (mkBodyAndFiles body files)) ≠ [] :=
    pyStrip_ne_nil (pipe_mem_mkBlock hash subject (mkBodyAndFiles body files)) (by decide)
  have hlines : (mkBodyAndFiles body files).splitOn '\n' = body.splitOn '\n' ++ files := by
    unfold mkBodyAndFiles
    rw [splitOn_append_sep]
    congr 1
    exact List.splitOn_intercalate files '\n' hfnl hfne
  have hscan : scanLines (body.splitOn '\n' ++ files) false = (body.splitOn '\n', files) := by
    rw [scanLines_false]
    obtain ⟨f0, fs, hfe⟩ := List.exists_cons_of_ne_nil hfne
    have hf0 : isFileStart f0 = true := hfiles f0 (by rw [hfe]; exact List.mem_cons_self f0 fs)
    rw [List.takeWhile_append_of_pos (by intro l hl; simp [hbodylines l hl]),
        List.dropWhile_append_of_pos (by intro l hl; simp [hbodylines l hl])]
    rw [hfe, List.takeWhile_cons, List.dropWhile_cons]
    simp [hf0]
  have hfilter : files.filter (fun f => !(pyStrip f).isEmpty) = files := by
    rw [List.filter_eq_self]
    intro f hf
    simpa [List.isEmpty_iff] using strip_ne_nil_of_fileStart (hfiles f hf)
  simp only [parseBlock]
  rw [if_neg hblockstrip, hparts]
  simp only [List.getD_cons_zero, List.getD_cons_succ, List.length_cons, List.length_nil]
  rw [if_neg (by omega)]
  rw [hlines, hscan]
  simp only [hhash, hsubj]
  rw [List.intercalate_splitOn, hfilter]

/-- C1: the terseness classifier returns candidate if and only if: the body
has at most 200 characters, the subject starts with neither release marker,
the lowercased subject equals a terse verb or starts with one followed
immediately by a colon or an open parenthesis, and the raw subject length is
under 60 characters.  Body length over 200, or a release prefix, therefore
forces non-candidate. -/
theorem needs_enhancement_iff (c : Commit) :
    needs_enhancement c = true ↔
      (c.body.length ≤ 200 ∧
       ¬ "Release v".data <+: c.subject ∧
       ¬ "Bump version".data <+: c.subject ∧
       (∃ p ∈ tersePatterns,
          c.subject.map Char.toLower = p ∨
          (p ++ [':']) <+: c.subject.map Char.toLower ∨
          (p ++ ['(']) <+: c.subject.map Char.toLower) ∧
       c.subject.length < 60) := by
  unfold needs_enhancement
  simp only [List.any_eq_true, Bool.or_eq_true, beq_iff_eq, List.isPrefixOf_iff_prefix,
    or_assoc]
  split_ifs with hb hr ht hl
  · simp only [Bool.false_eq_true, false_iff]
    omega
  · simp only [Bool.false_eq_true, false_iff]
    tauto
  · simp only [true_iff]
    have hr2 := not_or.mp hr
    exact ⟨by omega, hr2.1, hr2.2, ht, hl⟩
  · simp only [Bool.false_eq_true, false_iff]
    intro hrhs
    exact hl hrhs.2.2.2.2
  · simp only [Bool.false_eq_true, false_iff]
    intro hrhs
    exact ht hrhs.2.2.2.1

/-- C2: round-trip of the history parser.  For a synthetic sentinel-terminated
log block `hash|||subject|||body-and-files` in the parser's expected format —
hash and subject already stripped, free of `'|||'` and not ending in `'|'`,
no body line starting with a known path prefix, every file line starting with
one, no `'|||'` in the body or the files, newline-free file entries, and no
non-terminal sentinel occurrence — `get_commits` recovers exactly that
subject, the body trimmed, and the file list in the original order. -/
theorem get_commits_roundtrip (stats : List Char → List Char)
    (hash subject body : List Char) (files : List (List Char))
    (hhash : pyStrip hash = hash) (hhne : ¬ tripleBar <:+: hash)
    (hhlast : hash.getLast? ≠ some '|')
    (hsubj : pyStrip subject = subject) (hsne : ¬ tripleBar <:+: subject)
    (hslast : subject.getLast? ≠ some '|')
    (hbody : ¬ tripleBar <:+: body)
    (hbodylines : ∀ l ∈ body.splitOn '\n', isFileStart l = false)
    (hfiles : ∀ f ∈ files, isFileStart f = true)
    (hfsep : ∀ f ∈ files, ¬ tripleBar <:+: f)
    (hfnl : ∀ f ∈ files, '\n' ∉ f)
    (hfne : files ≠ [])
    (hsent : sentinelFree (mkBlock hash subject (mkBodyAndFiles body files))) :
    get_commits stats (mkStdout (mkBlock hash subject (mkBodyAndFiles body files)))
      = [⟨hash, subject, pyStrip body, files, stats hash⟩] := by
  rw [get_commits, stdout_split hsent]
  have h1 := parseBlock_eval stats hash subject body files hhash hhne hhlast hsubj hsne
    hslast hbody hbodylines hfiles hfsep hfnl hfne
  simp only [List.filterMap_cons, h1, parseBlock_nil, List.filterMap_nil]

/-- Witness for C2 at a concrete synthetic block. -/
theorem get_commits_roundtrip_witness :
    pyStrip "abc123".data = "abc123".data ∧
    (¬ tripleBar <:+: "abc123".data) ∧
    "abc123".data.getLast? ≠ some '|' ∧
    pyStrip "fix: thing".data = "fix: thing".data ∧
    (¬ tripleBar <:+: "fix: thing".data) ∧
    "fix: thing".data.getLast? ≠ some '|' ∧
    (¬ tripleBar <:+: "does stuff\nmore".data) ∧
    (∀ l ∈ "does stuff\nmore".data.splitOn '\n', isFileStart l = false) ∧
    (∀ f ∈ ["src/a.rs".data, "docs/b.md".data], isFileStart f = true) ∧
    (∀ f ∈ ["src/a.rs".data, "docs/b.md".data], ¬ tripleBar <:+: f) ∧
    (∀ f ∈ ["src/a.rs".data, "docs/b.md".data], '\n' ∉ f) ∧
    (["src/a.rs".data, "docs/b.md".data] : List (List Char)) ≠ [] ∧
    sentinelFree (mkBlock "abc123".data "fix: thing".data
      (mkBodyAndFiles "does stuff\nmore".data ["src/a.rs".data, "docs/b.md".data])) ∧
    get_commits (fun _ => []) (mkStdout (mkBlock "abc123".data "fix: thing".data
        (mkBodyAndFiles "does stuff\nmore".data ["src/a.rs".data, "docs/b.md".data])))
      = [⟨"abc123".data, "fix: thing".data, pyStrip "does stuff\nmore".data,
          ["src/a.rs".data, "docs/b.md".data], []⟩] :=
  ⟨by decide, by decide, by decide, by decide, by decide, by decide, by decide, by decide,
   by decide, by decide, by decide, by decide, by decide,
   get_commits_roundtrip (fun _ => []) "abc123".data "fix: thing".data
     "does stuff\nmore".data ["src/a.rs".data, "docs/b.md".data]
     (by decide) (by decide) (by decide) (by decide) (by decide) (by decide) (by decide)
     (by decide) (by decide) (by decide) (by decide) (by decide) (by decide)⟩

/-- C3: the BODY-to-FILES transition of the line scan is irrevocable: in body
mode the body lines are exactly the longest prefix of lines not starting with
a known path prefix, and from the first such line on, that line and every
later line is a file line; once in files mode every remaining line is a file
line. -/
theorem scanLines_irrevocable (ls : List (List Char)) :
    scanLines ls false
      = (ls.takeWhile (fun l => !isFileStart l), ls.dropWhile (fun l => !isFileStart l)) ∧
    ∀ ls' : List (List Char), scanLines ls' true = ([], ls') :=
  ⟨scanLines_false ls, scanLines_true⟩

theorem pyReplace_ms (a : List Char)
    (hfree : ∀ i, i < a.length → ¬ "ms".data <+: (a.drop i ++ ("ms".data ++ []))) :
    pyReplace "ms".data [] (a ++ "ms".data) = a := by
  unfold pyReplace
  have h3 := pySplit_append_sep "ms".data (by decide) a [] hfree
  rw [List.append_nil] at h3
  rw [h3, pySplit_nil]
  simp [List.intercalate, List.intersperse]

theorem extract_row110 :
    extractSearchMs ["| search | 110.00ms | 133ms | 140ms | 1.2x |".data] = some 110 := by
  have h0 : extractSearchMs ["| search | 110.00ms | 133ms | 140ms | 1.2x |".data]
      = parsePyFloat (pyReplace "ms".data [] "110.00ms".data) := rfl
  have h1 : ("110.00ms".data : List Char) = "110.00".data ++ "ms".data := by decide
  rw [h0, h1, pyReplace_ms "110.00".data (by decide)]
  have h4 : parsePyFloat "110.00".data
      = some ((1 : ℚ) * (((110 : ℕ) : ℚ) + ((0 : ℕ) : ℚ) / (10 : ℚ) ^ (2 : ℕ))) := rfl
  rw [h4]
  norm_num

theorem extract_row120 :
    extractSearchMs ["| search | 120.00ms | 133ms | 140ms | 1.2x |".data] = some 120 := by
  have h0 : extractSearchMs ["| search | 120.00ms | 133ms | 140ms | 1.2x |".data]
      = parsePyFloat (pyReplace "ms".data [] "120.00ms".data) := rfl
  have h1 : ("120.00ms".data : List Char) = "120.00".data ++ "ms".data := by decide
  rw [h0, h1, pyReplace_ms "120.00".data (by decide)]
  have h4 : parsePyFloat "120.00".data
      = some ((1 : ℚ) * (((120 : ℕ) : ℚ) + ((0 : ℕ) : ℚ) / (10 : ℚ) ^ (2 : ℕ))) := rfl
  rw [h4]
  norm_num

/-- C4: with a loaded baseline value b ≠ 0 and a report measurement c, the
comparator fails (exit 1) iff c > b × 1.15, and the reported percentage
increase is (c/b − 1) × 100; concretely, baseline 100 passes on a 110.00ms
row and fails on a 120.00ms row with a 20.00% diff. -/
theorem check_regression_threshold (b c : ℚ) (lines : List (List Char))
    (hb : b ≠ 0) (hc : extractSearchMs lines = some c) :
    (check_regression (BaselineLoad.loaded (some b)) (some lines) = 1 ↔ b * (1.15 : ℚ) < c) ∧
    regressionDiff b c = (c / b - 1) * 100 ∧
    check_regression (BaselineLoad.loaded (some 100))
      (some ["| search | 110.00ms | 133ms | 140ms | 1.2x |".data]) = 0 ∧
    check_regression (BaselineLoad.loaded (some 100))
      (some ["| search | 120.00ms | 133ms | 140ms | 1.2x |".data]) = 1 ∧
    regressionDiff 100 120 = 20 := by
  have heval : ∀ (b' c' : ℚ) (lines' : List (List Char)),
      extractSearchMs lines' = some c' → b' ≠ 0 →
      check_regression (BaselineLoad.loaded (some b')) (some lines')
        = if b' * (1.15 : ℚ) < c' then 1 else 0 := by
    intro b' c' lines' hc' hb'
    simp only [check_regression, hc']
    rw [if_neg hb']
  refine ⟨?_, rfl, ?_, ?_, ?_⟩
  · rw [heval b c lines hc hb]
    split_ifs with h
    · simp [h]
    · simp [h]
  · rw [heval 100 110 _ extract_row110 (by norm_num)]
    norm_num
  · rw [heval 100 120 _ extract_row120 (by norm_num)]
    norm_num
  · unfold regressionDiff
    norm_num

/-- Witness for C4 at baseline 100 and the concrete 120.00ms row. -/
theorem check_regression_threshold_witness :
    (100 : ℚ) ≠ 0 ∧
    extractSearchMs ["| search | 120.00ms | 133ms | 140ms | 1.2x |".data] = some 120 ∧
    ((check_regression (BaselineLoad.loaded (some 100))
        (some ["| search | 120.00ms | 133ms | 140ms | 1.2x |".data]) = 1 ↔
          (100 : ℚ) * (1.15 : ℚ) < 120) ∧
      regressionDiff 100 120 = (120 / 100 - 1) * 100 ∧
      check_regression (BaselineLoad.loaded (some 100))
        (some ["| search | 110.00ms | 133ms | 140ms | 1.2x |".data]) = 0 ∧
      check_regression (BaselineLoad.loaded (some 100))
        (some ["| search | 120.00ms | 133ms | 140ms | 1.2x |".data]) = 1 ∧
      regressionDiff 100 120 = 20) :=
  ⟨by norm_num, extract_row120,
   check_regression_threshold 100 120 ["| search | 120.00ms | 133ms | 140ms | 1.2x |".data]
     (by norm_num) extract_row120⟩

/-- C5: with a loaded baseline, if the report has no line containing
`'| search |'`, or the extracted third cell fails to parse, the comparator
exits 1 — distinct from the exit-0 skip outcome of a missing baseline. -/
theorem check_regression_malformed (sm : Option ℚ) (lines : List (List Char))
    (h : (∀ l ∈ lines, pyContains l searchMarker = false) ∨ extractSearchMs lines = none) :
    check_regression (BaselineLoad.loaded sm) (some lines) = 1 ∧
    check_regression BaselineLoad.absent (some lines) = 0 := by
  have hnone : extractSearchMs lines = none := by
    rcases h with h | h
    · unfold extractSearchMs
      rw [List.find?_eq_none.mpr (by intro l hl; simp [h l hl])]
    · exact h
  exact ⟨by simp only [check_regression, hnone], rfl⟩

/-- Witness for C5 on a report with no search row. -/
theorem check_regression_malformed_witness :
    ((∀ l ∈ [" no relevant row here ".data], pyContains l searchMarker = false) ∨
      extractSearchMs [" no relevant row here ".data] = none) ∧
    (check_regression (BaselineLoad.loaded (some 100))
        (some [" no relevant row here ".data]) = 1 ∧
      check_regression BaselineLoad.absent (some [" no relevant row here ".data]) = 0) :=
  ⟨Or.inl (by decide),
   check_regression_malformed (some 100) [" no relevant row here ".data] (Or.inl (by decide))⟩

/-- C6: with the baseline file absent, or present but unreadable/unparsable,
the comparator exits 0 regardless of the report content. -/
theorem check_regression_no_baseline (report : Option (List (List Char))) :
    check_regression BaselineLoad.absent report = 0 ∧
    check_regression BaselineLoad.loadError report = 0 :=
  ⟨rfl, rfl⟩

/-- C7: with a loaded baseline whose search_ms field is absent or zero, and a
report yielding a measurement, the comparator exits 0 (an invalid baseline
disables the gate rather than failing it). -/
theorem check_regression_invalid_baseline (lines : List (List Char)) (c : ℚ)
    (hc : extractSearchMs lines = some c) :
    check_regression (BaselineLoad.loaded none) (some lines) = 0 ∧
    check_regression (BaselineLoad.loaded (some 0)) (some lines) = 0 := by
  constructor
  · simp only [check_regression, hc]
  · simp only [check_regression, hc]
    norm_num

/-- Witness for C7 on the concrete 110.00ms row. -/
theorem check_regression_invalid_baseline_witness :
    extractSearchMs ["| search | 110.00ms | 133ms | 140ms | 1.2x |".data] = some 110 ∧
    (check_regression (BaselineLoad.loaded none)
        (some ["| search | 110.00ms | 133ms | 140ms | 1.2x |".data]) = 0 ∧
      check_regression (BaselineLoad.loaded (some 0))
        (some ["| search | 110.00ms | 133ms | 140ms | 1.2x |".data]) = 0) :=
  ⟨extract_row110,
   check_regression_invalid_baseline ["| search | 110.00ms | 133ms | 140ms | 1.2x |".data]
     110 extract_row110⟩

theorem infl_end (a x : List Char) : x <:+: a ++ x := ⟨a, [], by simp⟩

theorem infl_grow (e : List Char) {x b : List Char} (h : x <:+: b) : x <:+: b ++ e := by
  obtain ⟨s, t, he⟩ := h
  exact ⟨s, t ++ e, by rw [← List.append_assoc, he]⟩

/-- C8: the template generator is a deterministic pure function of the commit
record and the fixed context string — equal inputs give identical text — and
its output embeds the original subject, the newline-joined first 10 changed
files in order, the first 500 characters of the diff stats, and the first 500
characters of the static project context. -/
theorem enhance_commit_deterministic (context : List Char) (c c' : Commit) (h : c = c') :
    enhance_commit context c = enhance_commit context c' ∧
    c.subject <:+: enhance_commit context c ∧
    (List.intercalate ['\n'] ((c.files_changed.take 10).map fun f => "  - ".data ++ f))
      <:+: enhance_commit context c ∧
    c.stats.take 500 <:+: enhance_commit context c ∧
    context.take 500 <:+: enhance_commit context c := by
  subst h
  unfold enhance_commit
  refine ⟨rfl, ?_, ?_, ?_, ?_⟩
  · exact infl_grow _ (infl_grow _ (infl_grow _ (infl_grow _ (infl_grow _ (infl_grow _
      (infl_grow _ (infl_end _ _)))))))
  · exact infl_grow _ (infl_grow _ (infl_grow _ (infl_grow _ (infl_grow _ (infl_end _ _)))))
  · exact infl_grow _ (infl_grow _ (infl_grow _ (infl_end _ _)))
  · exact infl_grow _ (infl_end _ _)

/-- Witness for C8 at a concrete record and context. -/
theorem enhance_commit_deterministic_witness :
    enhance_commit "ctx".data ⟨"h".data, "subj".data, "b".data, ["src/x".data], "stats".data⟩
      = enhance_commit "ctx".data
          ⟨"h".data, "subj".data, "b".data, ["src/x".data], "stats".data⟩ ∧
    "subj".data <:+: enhance_commit "ctx".data
      ⟨"h".data, "subj".data, "b".data, ["src/x".data], "stats".data⟩ ∧
    (List.intercalate ['\n'] ((["src/x".data].take 10).map fun f => "  - ".data ++ f))
      <:+: enhance_commit "ctx".data
        ⟨"h".data, "subj".data, "b".data, ["src/x".data], "stats".data⟩ ∧
    "stats".data.take 500 <:+: enhance_commit "ctx".data
      ⟨"h".data, "subj".data, "b".data, ["src/x".data], "stats".data⟩ ∧
    "ctx".data.take 500 <:+: enhance_commit "ctx".data
      ⟨"h".data, "subj".data, "b".data, ["src/x".data], "stats".data⟩ :=
  enhance_commit_deterministic "ctx".data
    ⟨"h".data, "subj".data, "b".data, ["src/x".data], "stats".data⟩
    ⟨"h".data, "subj".data, "b".data, ["src/x".data], "stats".data⟩ rfl

/-- C9: the diff-stat fetcher never raises — `subprocess.run` is invoked
without `check`, so no `CalledProcessError` propagates — and on a failed
invocation (non-zero exit, hence no captured stdout) it returns the empty
string; a fetch failure therefore cannot abort the enclosing parse. -/
theorem get_diff_stats_nonfatal (res : ProcResult)
    (h : res.returncode ≠ 0 → res.stdout = []) :
    (∃ s, _get_diff_stats res = Except.ok s) ∧
    (res.returncode ≠ 0 → _get_diff_stats res = Except.ok []) := by
  constructor
  · exact ⟨pyStrip res.stdout, rfl⟩
  · intro hfail
    have hs : res.stdout = [] := h hfail
    simp [_get_diff_stats, subprocessRun, hs, pyStrip_nil_eq]

/-- Witness for C9 at a failed invocation with empty stdout. -/
theorem get_diff_stats_nonfatal_witness :
    ((⟨1, []⟩ : ProcResult).returncode ≠ 0 → (⟨1, []⟩ : ProcResult).stdout = []) ∧
    ((∃ s, _get_diff_stats ⟨1, []⟩ = Except.ok s) ∧
      ((⟨1, []⟩ : ProcResult).returncode ≠ 0 → _get_diff_stats ⟨1, []⟩ = Except.ok [])) :=
  ⟨fun _ => rfl, get_diff_stats_nonfatal ⟨1, []⟩ fun _ => rfl⟩

/-- C10 (implicit): `get_commits` splits each raw block on every occurrence
of `'|||'` and keeps only the field at index 2 as the body-and-files text:
appending `'|||'` and arbitrary further text inside the third field leaves the
parsed output unchanged — everything from that delimiter on is silently
discarded, so the parsed body and file list omit it. -/
theorem get_commits_discards_after_delimiter (stats : List Char → List Char)
    (hash subject X Y : List Char)
    (hhne : ¬ tripleBar <:+: hash) (hhlast : hash.getLast? ≠ some '|')
    (hsne : ¬ tripleBar <:+: subject) (hslast : subject.getLast? ≠ some '|')
    (hX : ¬ tripleBar <:+: X) (hXlast : X.getLast? ≠ some '|')
    (hs1 : sentinelFree (mkBlock hash subject (X ++ (tripleBar ++ Y))))
    (hs2 : sentinelFree (mkBlock hash subject X)) :
    get_commits stats (mkStdout (mkBlock hash subject (X ++ (tripleBar ++ Y))))
      = get_commits stats (mkStdout (mkBlock hash subject X)) := by
  rw [get_commits, get_commits, stdout_split hs1, stdout_split hs2]
  have hpartsL : pySplit tripleBar (mkBlock hash subject (X ++ (tripleBar ++ Y)))
      = hash :: subject :: X :: pySplit tripleBar Y := by
    unfold mkBlock
    rw [pySplit_append_sep tripleBar (by decide) hash _ (earlyFree_triple _ hhne hhlast)]
    rw [pySplit_append_sep tripleBar (by decide) subject _ (earlyFree_triple _ hsne hslast)]
    rw [pySplit_append_sep tripleBar (by decide) X Y (earlyFree_triple _ hX hXlast)]
  have hpartsR := parts_of_block hhne hhlast hsne hslast hX
  have hL : parseBlock stats (mkBlock hash subject (X ++ (tripleBar ++ Y)))
      = parseBlock stats (mkBlock hash subject X) := by
    have hstripL : pyStrip (mkBlock hash subject (X ++ (tripleBar ++ Y))) ≠ [] :=
      pyStrip_ne_nil (pipe_mem_mkBlock _ _ _) (by decide)
    have hstripR : pyStrip (mkBlock hash subject X) ≠ [] :=
      pyStrip_ne_nil (pipe_mem_mkBlock _ _ _) (by decide)
    simp only [parseBlock]
    rw [if_neg hstripL, if_neg hstripR, hpartsL, hpartsR]
    obtain ⟨r, rs, he⟩ := List.exists_cons_of_ne_nil (pySplit_ne_nil tripleBar Y)
    rw [he]
    simp only [List.getD_cons_zero, List.getD_cons_succ, List.length_cons, List.length_nil]
    rw [if_neg (by omega), if_neg (by omega)]
  simp only [List.filterMap_cons, hL, List.filterMap_nil]

/-- Witness for C10 at a concrete block whose third field contains '|||'. -/
theorem get_commits_discards_after_delimiter_witness :
    (¬ tripleBar <:+: "abc".data) ∧
    "abc".data.getLast? ≠ some '|' ∧
    (¬ tripleBar <:+: "fix".data) ∧
    "fix".data.getLast? ≠ some '|' ∧
    (¬ tripleBar <:+: "body\nsrc/a.rs".data) ∧
    "body\nsrc/a.rs".data.getLast? ≠ some '|' ∧
    sentinelFree (mkBlock "abc".data "fix".data
      ("body\nsrc/a.rs".data ++ (tripleBar ++ "junk".data))) ∧
    sentinelFree (mkBlock "abc".data "fix".data "body\nsrc/a.rs".data) ∧
    get_commits (fun _ => []) (mkStdout (mkBlock "abc".data "fix".data
        ("body\nsrc/a.rs".data ++ (tripleBar ++ "junk".data))))
      = get_commits (fun _ => []) (mkStdout (mkBlock "abc".data "fix".data
          "body\nsrc/a.rs".data)) :=
  ⟨by decide, by decide, by decide, by decide, by decide, by decide, by decide, by decide,
   get_commits_discards_after_delimiter (fun _ => []) "abc".data "fix".data
     "body\nsrc/a.rs".data "junk".data
     (by decide) (by decide) (by decide) (by decide) (by decide) (by decide)
     (by decide) (by decide)⟩
